import Mathlib

/-!
Verification development for the einat user-space control plane
(`src/instance.rs`, `src/main.rs`).

The Rust sources are embedded shallowly: pure functions become Lean
functions, the stateful reconciliation steps become explicit traces of
events, and machine integers become naturals with explicit `% 2 ^ 16`
where `u16` overflow matters.  Types that live in modules outside the two
given source files (the generated skeleton types, the `utils` address
helpers) are modelled from the specification and marked as such in their
doc comments.
-/

namespace Einat

/-! ## Port-range algebra -/

/-- Inclusive 16-bit port range, the embedding of `RangeInclusive<u16>`;
the first component is `start()`, the second is the inclusive upper bound. -/
abbrev PRange := Nat × Nat

/-- Membership of a port in one inclusive range. -/
def memRange (p : Nat) (r : PRange) : Bool :=
  decide (r.1 ≤ p) && decide (p ≤ r.2)

/-- Membership of a port in the union of a list of ranges. -/
def memRanges (p : Nat) (l : List PRange) : Bool :=
  l.any (memRange p)

/-- Stable insertion of a range into a list already sorted by start: the
new element goes after every element whose start is less than or equal to
its own, which preserves the relative order of equal keys. -/
def insertByStart (x : PRange) : List PRange → List PRange
  | [] => [x]
  | y :: ys => if Nat.ble y.1 x.1 then y :: insertByStart x ys else x :: y :: ys

/-- Stable sort by the start bound, the embedding of the source's
`ranges.sort_by_key(|range| *range.start())` (instance.rs line 150);
a stable sort's output is determined uniquely, so insertion sort is
extensionally the same function as Rust's stable merge sort. -/
def sortByStart (l : List PRange) : List PRange :=
  l.foldl (fun acc x => insertByStart x acc) []

/-- Wrapping 16-bit successor: the release-mode value of the `u16`
expression `*curr.end() + 1` in `sort_and_merge_ranges`
(instance.rs line 160). -/
def succ16 (n : Nat) : Nat := (n + 1) % 65536

/-- Merge loop of `sort_and_merge_ranges` (instance.rs lines 156-168),
run after the input has been filtered of empty ranges and sorted by start:
a gap strictly beyond the wrapped successor of the current upper bound
emits the current range, otherwise the current range absorbs the next. -/
def mergeLoop : PRange → List PRange → List PRange
  | curr, [] => [curr]
  | curr, next :: rest =>
    if succ16 curr.2 < next.1 then curr :: mergeLoop next rest
    else if curr.2 < next.2 then mergeLoop (curr.1, next.2) rest
    else mergeLoop curr rest

/-- `sort_and_merge_ranges` (instance.rs lines 144-169): drop empty
ranges, stably sort by the start bound, then linearly merge.  The source's
early return for lists shorter than two has the same value as running the
loop, so it is not special-cased here. -/
def sortAndMergeRanges (ranges : List PRange) : List PRange :=
  match sortByStart (ranges.filter fun r => Nat.ble r.1 r.2) with
  | [] => []
  | c :: rest => mergeLoop c rest

/-- Inner loop of `ExternalRanges::contains` (instance.rs lines 199-211):
against the current range `r`, consume leading ranges of `o` that fit
inside `r`; answer `none` on a containment failure and otherwise the
ranges left for the following outer iterations. -/
def containsInner (r : PRange) : List PRange → Option (List PRange)
  | [] => some []
  | oh :: os =>
    if oh.1 < r.1 then none
    else if r.2 < oh.1 then some (oh :: os)
    else if r.2 < oh.2 then none
    else containsInner r os

/-- Outer loop of `ExternalRanges::contains` (instance.rs lines 198-213):
walk the ranges of `t` in order, and succeed iff no containment failure
occurred and all of `o` was consumed. -/
def containsWalk : List PRange → List PRange → Bool
  | [], o => o.isEmpty
  | r :: rs, o =>
    match containsInner r o with
    | none => false
    | some o' => containsWalk rs o'

/-- `ExternalRanges::contains` (instance.rs lines 194-214): normalize both
lists and run the containment walk. -/
def containsRanges (a b : List PRange) : Bool :=
  containsWalk (sortAndMergeRanges a) (sortAndMergeRanges b)

/-- Order of ranges by their start bound (the sort key of the source's
stable sort). -/
def leStart (a b : PRange) : Prop := a.1 ≤ b.1

/-- Shape of consecutive ranges produced by the merge loop: starts do not
decrease, and either there is a true gap of at least one port after the
first range, or the first range ends at 65535 (the wrapped-successor case
of the `u16` gap test). -/
def mergedRel (a b : PRange) : Prop := a.1 ≤ b.1 ∧ (a.2 = 65535 ∨ a.2 + 1 < b.1)

/-- Propositional membership of a port in the union of a list of
ranges. -/
def MemP (p : Nat) (l : List PRange) : Prop := ∃ r ∈ l, memRange p r = true

/-- Bound on the length of a port-range list.
Modelled from the spec: `MAX_PORT_RANGES` is a compile-time constant of
the data plane (the skel module is not among the given sources); the spec
describes it as small, e.g. 4. -/
def maxPortRanges : Nat := 4

/-- Errors of `ExternalRanges::try_from`. -/
inductive RangesError
  | zeroNotAllowed
  | tooManyRanges
deriving DecidableEq

/-- `ExternalRanges::try_from` (instance.rs lines 172-192): reject any
range starting at zero unless `allowZero`, normalize, then bound the
length of the result. -/
def tryFromRanges (ranges : List PRange) (allowZero : Bool) :
    Except RangesError (List PRange) :=
  if !allowZero && ranges.any (fun r => Nat.beq r.1 0) then
    .error .zeroNotAllowed
  else
    let merged := sortAndMergeRanges ranges
    if maxPortRanges < merged.length then .error .tooManyRanges
    else .ok merged

example : sortAndMergeRanges [(200, 300), (0, 100), (50, 150), (250, 290)]
    = [(0, 150), (200, 300)] := by decide

example : containsRanges [(0, 150), (200, 300)] [(0, 100)] = true := by decide

example : containsRanges [(0, 150), (200, 300)] [(120, 220)] = false := by decide

example : tryFromRanges [(0, 1)] false = .error .zeroNotAllowed := rfl

example : sortAndMergeRanges [(1, 65535), (2, 3)] = [(1, 65535), (2, 3)] := by decide

/-! ## External policy normalizer -/

/-- An IP address of either family; the numeric payload stands for the
address bits. -/
inductive IpAddress
  | v4 (a : Nat)
  | v6 (a : Nat)
deriving DecidableEq

/-- An `IpNet` of either family: network address bits plus length. -/
inductive IpNetSpec
  | v4 (addr : Nat) (len : Nat)
  | v6 (addr : Nat) (len : Nat)
deriving DecidableEq

/-- `AddressOrMatcher` of the config module (used by instance.rs): a fixed
external address, or a network that selects local addresses at reconcile
time. -/
inductive AddressOrMatcher
  | static (address : IpAddress)
  | matcher (matchAddress : IpNetSpec)
deriving DecidableEq

/-- Raw per-external policy entry, the fields of `ConfigExternal` that
`External::try_from` consumes. -/
structure ConfigExternal where
  address : AddressOrMatcher
  no_snat : Bool
  no_hairpin : Bool
  tcp_ranges : Option (List PRange)
  udp_ranges : Option (List PRange)
  icmp_ranges : Option (List PRange)
  icmp_in_ranges : Option (List PRange)
  icmp_out_ranges : Option (List PRange)
deriving DecidableEq

/-- Default range lists of `ConfigDefaults` consumed by
`External::try_from`. -/
structure ConfigDefaults where
  tcp_ranges : List PRange
  udp_ranges : List PRange
  icmp_ranges : List PRange
  icmp_in_ranges : List PRange
  icmp_out_ranges : List PRange
deriving DecidableEq

/-- Validated policy entry, the `External` struct of instance.rs
(lines 65-75). -/
structure External where
  address : AddressOrMatcher
  no_snat : Bool
  no_hairpin : Bool
  tcp_ranges : List PRange
  udp_ranges : List PRange
  icmp_ranges : List PRange
  icmp_in_ranges : List PRange
  icmp_out_ranges : List PRange
deriving DecidableEq

/-- Errors of `External::try_from`. -/
inductive ExternalError
  | ranges (e : RangesError)
  | icmpInNotContained
  | icmpOutNotContained
deriving DecidableEq

/-- `External::try_from` (instance.rs lines 234-302): parse the five range
lists (an entry's own list if present, otherwise the default), coerce the
ICMP-in and ICMP-out lists to empty when the ICMP list came out empty, and
check ICMP containment over both. -/
def External.tryFrom (external : ConfigExternal) (defaults : ConfigDefaults) :
    Except ExternalError External :=
  ((tryFromRanges
    (external.tcp_ranges.getD defaults.tcp_ranges) false).mapError
      ExternalError.ranges).bind fun tcp_ranges =>
  ((tryFromRanges
    (external.udp_ranges.getD defaults.udp_ranges) false).mapError
      ExternalError.ranges).bind fun udp_ranges =>
  ((tryFromRanges
    (external.icmp_ranges.getD defaults.icmp_ranges) true).mapError
      ExternalError.ranges).bind fun icmp_ranges =>
  (if icmp_ranges.isEmpty then Except.ok [] else
    (tryFromRanges
      (external.icmp_in_ranges.getD defaults.icmp_in_ranges) true).mapError
        ExternalError.ranges).bind fun icmp_in_ranges =>
  (if icmp_ranges.isEmpty then Except.ok [] else
    (tryFromRanges
      (external.icmp_out_ranges.getD defaults.icmp_out_ranges) true).mapError
        ExternalError.ranges).bind fun icmp_out_ranges =>
  if !(containsRanges icmp_ranges icmp_in_ranges) then
    .error .icmpInNotContained
  else if !(containsRanges icmp_ranges icmp_out_ranges) then
    .error .icmpOutNotContained
  else
    .ok ⟨external.address, external.no_snat, external.no_hairpin, tcp_ranges,
      udp_ranges, icmp_ranges, icmp_in_ranges, icmp_out_ranges⟩

/-! ## Runtime configuration builder (IPv4 instance)

The builder is generic over the address family in the source; the claims
are settled on the `Ipv4Net` instance.  The `IpNetwork` helper trait and
the `ipnet`/`prefix_trie` crates are outside the given sources, so their
operations are modelled from the spec where noted. -/

/-- An IPv4 network: address bits paired with the network length. -/
abbrev V4Net := Nat × Nat

/-- Host-width network of an address.
Modelled from the spec: a matcher "selects ... every locally-assigned host
address (prefix length = host width)", and `Ipv4Net::from_addr` of the
utils layer builds that host-width network. -/
def hostNet (a : Nat) : V4Net := (a, 32)

/-- Whether a network's address part is the unspecified address.
Modelled from the spec: the family's unspecified address is all-zero. -/
def netIsUnspecified (n : V4Net) : Bool := Nat.beq n.1 0

/-- The family's unspecified host-width network.
Modelled from the spec: "set it to the family's unspecified host-prefix". -/
def netUnspecified : V4Net := hostNet 0

/-- `Self::Prefix::from_ip_addr` for the IPv4 instance.
Modelled from the spec: a `Static(ip)` matches only when `ip`'s family is
the builder's family, producing the host-width network. -/
def fromIpAddr : IpAddress → Option V4Net
  | .v4 a => some (hostNet a)
  | .v6 _ => none

/-- The address of a host-width network, as an `IpAddr`. -/
def netIpAddr (n : V4Net) : IpAddress := .v4 n.1

/-- `IpNet::contains` of a network over an address: families must agree
and the top `len` bits of the addresses must agree.  Modelled from the
spec's matcher semantics ("every address ... that falls inside the matcher
prefix"). -/
def ipNetContains (net : IpNetSpec) (a : IpAddress) : Bool :=
  match net, a with
  | .v4 m len, .v4 a => Nat.beq (a / 2 ^ (32 - len)) (m / 2 ^ (32 - len))
  | .v6 m len, .v6 a => Nat.beq (a / 2 ^ (128 - len)) (m / 2 ^ (128 - len))
  | _, _ => false

/-- Insertion into an address list kept sorted by address bits. -/
def insertNetByAddr (x : V4Net) : List V4Net → List V4Net
  | [] => [x]
  | y :: ys => if Nat.ble y.1 x.1 then y :: insertNetByAddr x ys
    else x :: y :: ys

/-- Removal of duplicates keeping first occurrences, with an accumulator
of the elements already seen. -/
def dedupNets (seen : List V4Net) : List V4Net → List V4Net
  | [] => []
  | x :: xs => if seen.contains x then dedupNets seen xs
    else x :: dedupNets (x :: seen) xs

/-- Ordered address set standing in for `PrefixSet` of the prefix-trie
crate: ascending iteration over the distinct elements.  Modelled from the
spec: iteration order is "the address-set iteration order (stable between
calls with the same inputs)". -/
def netSetOfList (l : List V4Net) : List V4Net :=
  dedupNets [] (l.foldl (fun acc x => insertNetByAddr x acc) [])

/-- `DestConfig` flag value of the data plane (`NO_SNAT` and `HAIRPIN`
bits).  Modelled from the spec's DestConfig description; the skel module
is not among the given sources. -/
structure BpfDestConfig where
  no_snat : Bool
  hairpin : Bool
deriving DecidableEq

/-- Default `DestConfig`: all flags cleared. -/
def BpfDestConfig.dfl : BpfDestConfig := ⟨false, false⟩

/-- `ExternalConfig` value of the data plane: the `NO_SNAT` bit plus the
five encoded range lists (array plus length byte, represented here as the
list that `apply_raw` writes).  Modelled from the spec's ExternalConfig
description. -/
structure BpfExternalConfig where
  no_snat : Bool
  tcp_range : List PRange
  udp_range : List PRange
  icmp_range : List PRange
  icmp_in_range : List PRange
  icmp_out_range : List PRange
deriving DecidableEq

/-- Default `ExternalConfig`: flags cleared, all range arrays empty. -/
def BpfExternalConfig.dfl : BpfExternalConfig := ⟨false, [], [], [], [], []⟩

/-- Association-list stand-in for `PrefixMap`: `entry(k).or_default()`
followed by a mutation of the entry's value. -/
def updateEntry {V : Type} (m : List (V4Net × V)) (k : V4Net) (dfl : V)
    (f : V → V) : List (V4Net × V) :=
  if m.any (fun kv => kv.1 == k) then
    m.map fun kv => if kv.1 == k then (kv.1, f kv.2) else kv
  else m ++ [(k, f dfl)]

/-- Keys of an association-list map. -/
def keysOf {V : Type} (m : List (V4Net × V)) : List V4Net := m.map Prod.fst

/-- Lookup in an association-list map. -/
def lookupNet {V : Type} (m : List (V4Net × V)) (k : V4Net) : Option V :=
  (m.find? fun kv => kv.1 == k).map Prod.snd

/-- The `matches` computed for one external (instance.rs lines 339-355):
a static address yields its host-width network when its family is IPv4 and
it is not unspecified; a matcher selects every remaining set element
inside the matcher network that is not unspecified, in set order. -/
def matchesOf (external : External) (addressesSet : List V4Net) : List V4Net :=
  match external.address with
  | .static address =>
    match fromIpAddr address with
    | some address => if !netIsUnspecified address then [address] else []
    | none => []
  | .matcher match_address =>
    addressesSet.filter fun address =>
      ipNetContains match_address (netIpAddr address) && !netIsUnspecified address

/-- Update of one matched network in the two maps (the body of the
`for network in matches` loop, instance.rs lines 367-399): the dest
entry's `HAIRPIN` bit is set from `no_hairpin` and the external entry's
`NO_SNAT` bit from `no_snat`; for an external subject to SNAT the five
range lists are also serialized into the external entry, otherwise the
loop body continues early and leaves the entry's ranges alone. -/
def applyMatchStep (external : External)
    (st : List (V4Net × BpfDestConfig) × List (V4Net × BpfExternalConfig))
    (network : V4Net) :
    List (V4Net × BpfDestConfig) × List (V4Net × BpfExternalConfig) :=
  let dest := updateEntry st.1 network BpfDestConfig.dfl fun v =>
    { v with hairpin := !external.no_hairpin }
  let ext := updateEntry st.2 network BpfExternalConfig.dfl fun v =>
    let v := { v with no_snat := external.no_snat }
    if external.no_snat then v
    else
      { v with
        tcp_range := external.tcp_ranges
        udp_range := external.udp_ranges
        icmp_range := external.icmp_ranges
        icmp_in_range := external.icmp_in_ranges
        icmp_out_range := external.icmp_out_ranges }
  (dest, ext)

/-- Map updates for the matches of one external (instance.rs lines
367-399). -/
def applyMatches (external : External) (matched : List V4Net)
    (dest : List (V4Net × BpfDestConfig))
    (ext : List (V4Net × BpfExternalConfig)) :
    List (V4Net × BpfDestConfig) × List (V4Net × BpfExternalConfig) :=
  matched.foldl (applyMatchStep external) (dest, ext)

/-- Loop state of `RuntimeConfig::init` while iterating the externals. -/
structure InitState where
  dest_config : List (V4Net × BpfDestConfig)
  external_config : List (V4Net × BpfExternalConfig)
  addresses_set : List V4Net
  external_addr : Option V4Net
deriving DecidableEq

/-- One iteration of the externals loop of `RuntimeConfig::init`
(instance.rs lines 338-400): compute the matches, claim them out of the
remaining address set, record the first match of the first non-`no_snat`
external, and update both maps. -/
def initStep (st : InitState) (external : External) : InitState :=
  let matched := matchesOf external st.addresses_set
  let addresses_set := st.addresses_set.filter fun a => !matched.contains a
  let external_addr :=
    if st.external_addr.isNone && !external.no_snat then
      match matched.head? with
      | some first => some first
      | none => st.external_addr
    else st.external_addr
  let maps := applyMatches external matched st.dest_config st.external_config
  ⟨maps.1, maps.2, addresses_set, external_addr⟩

/-- The `RuntimeV4Config` struct (instance.rs lines 47-52), with the maps
as association lists. -/
structure RuntimeV4Config where
  external_addr : V4Net
  dest_config : List (V4Net × BpfDestConfig)
  external_config : List (V4Net × BpfExternalConfig)
deriving DecidableEq

/-- `RuntimeConfig::init` for the IPv4 instance (instance.rs lines
323-403), starting from the given map contents of `self` (both callers
pass empty maps): seed the dest map from the no-snat destinations, then
run the externals loop, and finish with the selected external address or
the unspecified one. -/
def runtimeInit (dest0 : List (V4Net × BpfDestConfig))
    (ext0 : List (V4Net × BpfExternalConfig))
    (no_snat_dests : List V4Net) (externals : List External)
    (addresses : List V4Net) : RuntimeV4Config :=
  let dest1 := no_snat_dests.foldl
    (fun m network => updateEntry m network BpfDestConfig.dfl fun v =>
      { v with no_snat := true })
    dest0
  let final := externals.foldl initStep ⟨dest1, ext0, netSetOfList addresses, none⟩
  ⟨final.external_addr.getD netUnspecified, final.dest_config, final.external_config⟩

/-- `RuntimeV4Config::from` (instance.rs lines 628-642): a builder run
over a list of host addresses, starting from empty maps. -/
def RuntimeV4Config.fromParts (no_snat_dests : List V4Net)
    (externals : List External) (addresses : List Nat) : RuntimeV4Config :=
  runtimeInit [] [] no_snat_dests externals (addresses.map hostNet)

/-- The per-external `matches` lists of one builder run, in externals
order, together with the external that produced each; this is the
externals loop of `init` restricted to its `matches`/set evolution. -/
def matchesTrace : List External → List V4Net → List (External × List V4Net)
  | [], _ => []
  | e :: es, s =>
    let ms := matchesOf e s
    (e, ms) :: matchesTrace es (s.filter fun a => !ms.contains a)

/-- Specification-side selection: the first match of the first
non-`no_snat` external whose matches are non-empty, walking the same
address-set evolution as the builder loop. -/
def firstExternalAddr : List External → List V4Net → Option V4Net
  | [], _ => none
  | e :: es, s =>
    let ms := matchesOf e s
    if !e.no_snat && !ms.isEmpty then ms.head?
    else firstExternalAddr es (s.filter fun a => !ms.contains a)

/-! ## Constant configuration -/

/-- The `ConstConfig` struct (instance.rs lines 29-46). -/
structure ConstConfig where
  log_level : Option Nat
  has_eth_encap : Option Bool
  ingress_ipv4 : Option Bool
  egress_ipv4 : Option Bool
  ingress_ipv6 : Option Bool
  egress_ipv6 : Option Bool
  enable_fib_lookup_src : Option Bool
  allow_inbound_icmpx : Option Bool
  timeout_fragment : Option Nat
  timeout_pkt_min : Option Nat
  timeout_pkt_default : Option Nat
  timeout_tcp_trans : Option Nat
  timeout_tcp_est : Option Nat
deriving DecidableEq

/-- Read-only data section of the data-plane object.
Modelled from the spec: the list of read-only constants in §6 of the spec;
the skel module holding the generated struct is not among the sources.
Booleans stand for the `as _`-cast flag bytes. -/
structure Rodata where
  LOG_LEVEL : Nat
  HAS_ETH_ENCAP : Bool
  INGRESS_IPV4 : Bool
  EGRESS_IPV4 : Bool
  INGRESS_IPV6 : Bool
  EGRESS_IPV6 : Bool
  ENABLE_FIB_LOOKUP_SRC : Bool
  ALLOW_INBOUND_ICMPX : Bool
  TIMEOUT_FRAGMENT : Nat
  TIMEOUT_PKT_MIN : Nat
  TIMEOUT_PKT_DEFAULT : Nat
  TIMEOUT_TCP_TRANS : Nat
  TIMEOUT_TCP_EST : Nat
deriving DecidableEq

/-- One `if let Some(v) = ...` slot write of `ConstConfig::apply`. -/
def applyOpt {α : Type} (o : Option α) (f : α → Rodata → Rodata)
    (r : Rodata) : Rodata :=
  match o with
  | some v => f v r
  | none => r

/-- `ConstConfig::apply` (instance.rs lines 97-141): each present option
is written to a read-only slot, in source order.  Note the source writes
`timeout_pkt_default` into the `TIMEOUT_PKT_MIN` slot (line 133). -/
def ConstConfig.apply (c : ConstConfig) (r : Rodata) : Rodata :=
  let r := applyOpt c.log_level (fun v r => { r with LOG_LEVEL := v }) r
  let r := applyOpt c.has_eth_encap (fun v r => { r with HAS_ETH_ENCAP := v }) r
  let r := applyOpt c.ingress_ipv4 (fun v r => { r with INGRESS_IPV4 := v }) r
  let r := applyOpt c.egress_ipv4 (fun v r => { r with EGRESS_IPV4 := v }) r
  let r := applyOpt c.ingress_ipv6 (fun v r => { r with INGRESS_IPV6 := v }) r
  let r := applyOpt c.egress_ipv6 (fun v r => { r with EGRESS_IPV6 := v }) r
  let r := applyOpt c.enable_fib_lookup_src
    (fun v r => { r with ENABLE_FIB_LOOKUP_SRC := v }) r
  let r := applyOpt c.allow_inbound_icmpx
    (fun v r => { r with ALLOW_INBOUND_ICMPX := v }) r
  let r := applyOpt c.timeout_fragment
    (fun v r => { r with TIMEOUT_FRAGMENT := v }) r
  let r := applyOpt c.timeout_pkt_min
    (fun v r => { r with TIMEOUT_PKT_MIN := v }) r
  let r := applyOpt c.timeout_pkt_default
    (fun v r => { r with TIMEOUT_PKT_MIN := v }) r
  let r := applyOpt c.timeout_tcp_trans
    (fun v r => { r with TIMEOUT_TCP_TRANS := v }) r
  let r := applyOpt c.timeout_tcp_est
    (fun v r => { r with TIMEOUT_TCP_EST := v }) r
  r

/-! ## CLI interface configuration -/

/-- The CLI arguments relevant to the NAT-enable selection
(main.rs lines 43-53). -/
structure Args where
  config_file : Option String
  if_index : Option Nat
  if_name : Option String
  nat44 : Bool
  nat66 : Bool
deriving DecidableEq

/-- NAT-enable fields of the interface config that `main` builds from CLI
flags (main.rs lines 393-433), constructed when `ifname` or `ifindex` is
given and no config file is present. -/
structure CliNatSelection where
  nat44 : Bool
  nat66 : Bool
  default_externals : Bool
deriving DecidableEq

/-- The NAT-enable selection of `main` (main.rs lines 401-402, 422-431):
`nat44 = args.nat44 || !args.nat66`, `nat66 = args.nat66`, and default
externals are enabled. -/
def cliNatSelection (args : Args) : CliNatSelection :=
  ⟨args.nat44 || !args.nat66, args.nat66, true⟩

/-! ## Stale flow purger -/

/-- Flag bits of binding keys and values that the purger reads.
Modelled from the spec: the key layouts of §4.6 (the skel module is not
among the sources); a key or value carries a direction bit and one
address-family bit. -/
structure BindingFlags where
  orig_dir : Bool
  addr_ipv4 : Bool
  addr_ipv6 : Bool
deriving DecidableEq

/-- Binding-map key fields read by the purger.  Modelled from the spec's
§4.6 layout; fields the purger never reads are omitted. -/
structure MapBindingKey where
  flags : BindingFlags
  from_addr : IpAddress
deriving DecidableEq

/-- Binding-map value fields read by the purger.  Modelled from the spec's
§4.6 layout. -/
structure MapBindingValue where
  flags : BindingFlags
  to_addr : IpAddress
deriving DecidableEq

/-- Connection-tracking key fields read by the purger: the flag bits and
the external tuple's source address.  Modelled from the spec's §4.6
layout. -/
structure MapCtKey where
  flags : BindingFlags
  external_src_addr : IpAddress
deriving DecidableEq

/-- The family flag bit derived from the target address (instance.rs
lines 901-905), read off a flag set. -/
def addrFlagOf (a : IpAddress) (f : BindingFlags) : Bool :=
  match a with
  | .v4 _ => f.addr_ipv4
  | .v6 _ => f.addr_ipv6

/-- Binding-key collection loop of `remove_binding_and_ct_entries`
(instance.rs lines 908-922) over the binding map, modelled as the list of
key/value pairs in iteration order (each iterated key's lookup yields its
paired value). -/
def collectBindingKeys (binding : List (MapBindingKey × MapBindingValue))
    (external_addr : IpAddress) : List MapBindingKey :=
  binding.foldl
    (fun acc kv =>
      if kv.1.flags.orig_dir then
        if addrFlagOf external_addr kv.2.flags && kv.2.to_addr == external_addr
        then acc ++ [kv.1] else acc
      else
        if addrFlagOf external_addr kv.1.flags && kv.1.from_addr == external_addr
        then acc ++ [kv.1] else acc)
    []

/-- Connection-tracking key collection loop of
`remove_binding_and_ct_entries` (instance.rs lines 933-939). -/
def collectCtKeys (ct : List MapCtKey) (external_addr : IpAddress) :
    List MapCtKey :=
  ct.foldl
    (fun acc k =>
      if addrFlagOf external_addr k.flags && k.external_src_addr == external_addr
      then acc ++ [k] else acc)
    []

/-- Boolean form of the binding-entry selection condition of the purger's
first loop (instance.rs lines 911-921). -/
def bindingHitB (a : IpAddress) (kv : MapBindingKey × MapBindingValue) : Bool :=
  if kv.1.flags.orig_dir then
    addrFlagOf a kv.2.flags && kv.2.to_addr == a
  else
    addrFlagOf a kv.1.flags && kv.1.from_addr == a

/-- The claim's selection predicate for binding-map entries: an
original-direction key is selected on its value's family flag and
`to_addr`, a reply-direction key on its own family flag and
`from_addr`. -/
def BindingHit (a : IpAddress) (k : MapBindingKey) (v : MapBindingValue) : Prop :=
  (k.flags.orig_dir = true ∧ addrFlagOf a v.flags = true ∧ v.to_addr = a) ∨
  (k.flags.orig_dir = false ∧ addrFlagOf a k.flags = true ∧ k.from_addr = a)

/-- The claim's selection predicate for connection-tracking keys. -/
def CtHit (a : IpAddress) (k : MapCtKey) : Prop :=
  addrFlagOf a k.flags = true ∧ k.external_src_addr = a

/-- One bulk `delete_batch` call issued by the purger. -/
inductive PurgeBatch
  | bindingBatch (keys : List MapBindingKey)
  | ctBatch (keys : List MapCtKey)
deriving DecidableEq

/-- `remove_binding_and_ct_entries` (instance.rs lines 894-951): collect
the binding keys, bulk-delete them in one batch when any were collected,
then collect and bulk-delete the connection-tracking keys likewise.  The
result is the list of issued batches in order, and the two maps after the
deletions (`delete_batch` removes exactly the listed keys). -/
def removeBindingAndCtEntries (binding : List (MapBindingKey × MapBindingValue))
    (ct : List MapCtKey) (external_addr : IpAddress) :
    List PurgeBatch × List (MapBindingKey × MapBindingValue) × List MapCtKey :=
  let bks := collectBindingKeys binding external_addr
  let cks := collectCtKeys ct external_addr
  let batches := (if bks.isEmpty then [] else [PurgeBatch.bindingBatch bks])
    ++ (if cks.isEmpty then [] else [PurgeBatch.ctBatch cks])
  (batches, binding.filter fun kv => !bks.contains kv.1,
    ct.filter fun k => !cks.contains k)

/-! ## Reconciliation traces

The external-config `Update`/`Delete` handling of `RuntimeConfig::apply`
is effectful; it is embedded as the trace of data-plane-visible events it
performs, with the fallible map operations parameterized by whether they
fail. -/

/-- Data-plane-visible events of the guarded reconcile steps. -/
inductive SkelEvent
  | setDeletingFlag (v : Nat)
  | sleepMs (ms : Nat)
  | deleteBindingBatch (addr : IpAddress)
  | deleteCtBatch (addr : IpAddress)
  | writeExternalEntry (k : V4Net)
  | deleteExternalEntry (k : V4Net)
deriving DecidableEq

/-- Event trace of `remove_binding_and_ct_entries` (instance.rs lines
894-951) as called from the guarded region: the binding batch delete,
then the connection-tracking batch delete; `bindingFails` and `ctFails`
select the error returns of the two bulk deletes. -/
def purgeTrace (addr : IpAddress) (bindingFails ctFails : Bool) :
    List SkelEvent × Bool :=
  if bindingFails then ([.deleteBindingBatch addr], false)
  else if ctFails then ([.deleteBindingBatch addr, .deleteCtBatch addr], false)
  else ([.deleteBindingBatch addr, .deleteCtBatch addr], true)

/-- `with_skel_deleting` (instance.rs lines 879-892): raise the quiescence
flag, sleep one millisecond, run the body, lower the flag; the flag is
lowered also when the body reports an error, because the body's result is
captured before the flag write and returned afterwards. -/
def withSkelDeleting (body : List SkelEvent × Bool) : List SkelEvent × Bool :=
  ([.setDeletingFlag 1, .sleepMs 1] ++ body.1 ++ [.setDeletingFlag 0], body.2)

/-- External-config `Update` branch of `handle_external_change`
(instance.rs lines 464-478): inside the guarded region, purge the binding
and connection-tracking entries of the key's address, then overwrite the
external-config entry; an error of the purge skips the overwrite. -/
def updateExternalTrace (k : V4Net) (bindingFails ctFails writeFails : Bool) :
    List SkelEvent × Bool :=
  withSkelDeleting
    (let purge := purgeTrace (netIpAddr k) bindingFails ctFails
     if !purge.2 then purge
     else (purge.1 ++ [.writeExternalEntry k], !writeFails))

/-- External-config `Delete` branch of `handle_external_change`
(instance.rs lines 479-489): inside the guarded region, delete the
external-config entry, then purge the binding and connection-tracking
entries; an error of the entry delete skips the purge. -/
def deleteExternalTrace (k : V4Net) (deleteFails bindingFails ctFails : Bool) :
    List SkelEvent × Bool :=
  withSkelDeleting
    (if deleteFails then ([.deleteExternalEntry k], false)
     else
       let purge := purgeTrace (netIpAddr k) bindingFails ctFails
       (.deleteExternalEntry k :: purge.1, purge.2))

/-- Whether an event mutates a data-plane map (as opposed to the flag and
sleep bookkeeping of the guard). -/
def isMapMutation : SkelEvent → Bool
  | .deleteBindingBatch _ => true
  | .deleteCtBatch _ => true
  | .writeExternalEntry _ => true
  | .deleteExternalEntry _ => true
  | _ => false

/-- Whether an event is a binding or connection-tracking purge delete. -/
def isPurgeDelete : SkelEvent → Bool
  | .deleteBindingBatch _ => true
  | .deleteCtBatch _ => true
  | _ => false

/-! ## Concrete instances used by witnesses and counterexamples -/

/-- Constant configuration with both packet timeouts present. -/
def claim9C : ConstConfig :=
  ⟨none, none, none, none, none, none, none, none, none,
    some 7, some 9, none, none⟩

/-- Arbitrary concrete read-only section. -/
def claim9R : Rodata :=
  ⟨0, false, false, false, false, false, false, false, 0, 1, 2, 3, 4⟩

/-- The numeric value of the IPv4 address 1.2.3.4. -/
def addr1234 : Nat := 16909060

/-- The numeric value of the IPv4 address 5.6.7.8. -/
def addr5678 : Nat := 84281096

/-- First external of scenario S4: `Static(1.2.3.4)` with `no_snat`. -/
def s4External1 : External :=
  ⟨.static (.v4 addr1234), true, false, [], [], [], [], []⟩

/-- Second external of scenario S4: `Static(5.6.7.8)`. -/
def s4External2 : External :=
  ⟨.static (.v4 addr5678), false, false, [(20000, 29999)], [], [], [], []⟩

/-- Two static externals naming the same address; the first claims it
with hairpin disabled, the second matches it again with hairpin
enabled. -/
def dupExternal1 : External :=
  ⟨.static (.v4 addr1234), false, true, [], [], [], [], []⟩

/-- Second static external on the same address as `dupExternal1`. -/
def dupExternal2 : External :=
  ⟨.static (.v4 addr1234), false, false, [], [], [], [], []⟩

/-- Raw external entry with no own range lists, used by the C7 witness. -/
def w7External : ConfigExternal :=
  ⟨.static (.v4 addr1234), false, false, none, none, none, none, none⟩

/-- Defaults with a non-empty ICMP list containing both directional
lists, used by the C7 witness. -/
def w7Defaults : ConfigDefaults :=
  ⟨[(1, 2)], [(1, 2)], [(0, 5)], [(0, 3)], [(0, 5)]⟩

/-! ## Helper lemmas -/

theorem applyOpt_pkt_default {α : Type} (o : Option α) (f : α → Rodata → Rodata)
    (h : ∀ v, (f v r).TIMEOUT_PKT_DEFAULT = r.TIMEOUT_PKT_DEFAULT) :
    (applyOpt o f r).TIMEOUT_PKT_DEFAULT = r.TIMEOUT_PKT_DEFAULT := by
  cases o with
  | none => rfl
  | some v => exact h v

theorem applyOpt_pkt_min {α : Type} (o : Option α) (f : α → Rodata → Rodata)
    (h : ∀ v, (f v r).TIMEOUT_PKT_MIN = r.TIMEOUT_PKT_MIN) :
    (applyOpt o f r).TIMEOUT_PKT_MIN = r.TIMEOUT_PKT_MIN := by
  cases o with
  | none => rfl
  | some v => exact h v

theorem foldl_select_append {α β : Type} (p : α → Bool) (g : α → β) :
    ∀ (l : List α) (acc : List β),
      l.foldl (fun acc x => if p x then acc ++ [g x] else acc) acc
        = acc ++ (l.filter p).map g := by
  intro l
  induction l with
  | nil => intro acc; simp
  | cons x xs ih =>
    intro acc
    by_cases h : p x = true
    · simp [h, ih, List.filter_cons]
    · simp [h, ih, List.filter_cons]

theorem collectBindingKeys_eq (a : IpAddress)
    (binding : List (MapBindingKey × MapBindingValue)) :
    collectBindingKeys binding a
      = ((binding.filter (bindingHitB a)).map Prod.fst) := by
  unfold collectBindingKeys
  rw [List.foldl_ext
    (g := fun acc kv => if bindingHitB a kv then acc ++ [kv.1] else acc)]
  · exact foldl_select_append (bindingHitB a) Prod.fst binding []
  · intro acc kv _
    unfold bindingHitB
    cases kv.1.flags.orig_dir <;> simp

theorem collectCtKeys_eq (a : IpAddress) (ct : List MapCtKey) :
    collectCtKeys ct a
      = ct.filter fun k =>
          addrFlagOf a k.flags && k.external_src_addr == a := by
  unfold collectCtKeys
  rw [show (ct.filter fun k =>
      addrFlagOf a k.flags && k.external_src_addr == a) =
    (ct.filter fun k =>
      addrFlagOf a k.flags && k.external_src_addr == a).map id by simp]
  exact foldl_select_append _ id ct []

theorem bindingHitB_iff (a : IpAddress) (kv : MapBindingKey × MapBindingValue) :
    bindingHitB a kv = true ↔ BindingHit a kv.1 kv.2 := by
  unfold bindingHitB BindingHit
  cases h : kv.1.flags.orig_dir <;> simp [h]

theorem memRange_iff (p : Nat) (r : PRange) :
    memRange p r = true ↔ r.1 ≤ p ∧ p ≤ r.2 := by
  simp [memRange]

theorem memRanges_iff (p : Nat) (l : List PRange) :
    memRanges p l = true ↔ MemP p l := by
  simp [memRanges, List.any_eq_true, MemP]

theorem MemP_cons (p : Nat) (x : PRange) (l : List PRange) :
    MemP p (x :: l) ↔ memRange p x = true ∨ MemP p l := by
  simp [MemP]

theorem MemP_perm {l₁ l₂ : List PRange} (h : l₁.Perm l₂) (p : Nat) :
    MemP p l₁ ↔ MemP p l₂ := by
  unfold MemP
  constructor <;> rintro ⟨r, hr, hm⟩
  · exact ⟨r, h.mem_iff.mp hr, hm⟩
  · exact ⟨r, h.mem_iff.mpr hr, hm⟩

theorem insertByStart_perm (x : PRange) :
    ∀ l : List PRange, (insertByStart x l).Perm (x :: l) := by
  intro l
  induction l with
  | nil => simp [insertByStart]
  | cons y ys ih =>
    unfold insertByStart
    split
    · exact (ih.cons y).trans (List.Perm.swap x y ys)
    · exact List.Perm.refl _

theorem sortByStart_perm_aux :
    ∀ (l acc : List PRange),
      (l.foldl (fun acc x => insertByStart x acc) acc).Perm (l ++ acc) := by
  intro l
  induction l with
  | nil => intro acc; simp
  | cons x xs ih =>
    intro acc
    rw [List.foldl_cons]
    exact ((ih (insertByStart x acc)).trans
      ((insertByStart_perm x acc).append_left xs)).trans
      (List.perm_middle)

theorem sortByStart_perm (l : List PRange) : (sortByStart l).Perm l := by
  have h := sortByStart_perm_aux l []
  rwa [List.append_nil] at h

theorem insertByStart_sorted (x : PRange) :
    ∀ l : List PRange, List.Sorted leStart l →
      List.Sorted leStart (insertByStart x l) := by
  intro l
  induction l with
  | nil => intro _; simp [insertByStart, leStart]
  | cons y ys ih =>
    intro h
    rcases List.sorted_cons.mp h with ⟨hy, hys⟩
    unfold insertByStart
    by_cases hble : Nat.ble y.1 x.1 = true
    · rw [if_pos hble, List.sorted_cons]
      refine ⟨?_, ih hys⟩
      intro b hb
      rcases List.mem_cons.mp ((insertByStart_perm x ys).mem_iff.mp hb)
        with hb | hb
      · rw [hb]
        show y.1 ≤ x.1
        rw [← Nat.ble_eq]
        exact hble
      · exact hy b hb
    · rw [if_neg hble, List.sorted_cons]
      refine ⟨?_, h⟩
      have hxy : x.1 ≤ y.1 := by
        have hc : ¬ y.1 ≤ x.1 := fun hc => hble (by rw [Nat.ble_eq]; exact hc)
        omega
      intro b hb
      rcases List.mem_cons.mp hb with hb | hb
      · rw [hb]; exact hxy
      · exact le_trans hxy (hy b hb)

theorem sortByStart_sorted_aux :
    ∀ (l acc : List PRange), List.Sorted leStart acc →
      List.Sorted leStart (l.foldl (fun acc x => insertByStart x acc) acc) := by
  intro l
  induction l with
  | nil => intro acc h; exact h
  | cons x xs ih =>
    intro acc h
    rw [List.foldl_cons]
    exact ih _ (insertByStart_sorted x acc h)

theorem sortByStart_sorted (l : List PRange) :
    List.Sorted leStart (sortByStart l) :=
  sortByStart_sorted_aux l [] (List.sorted_nil)

theorem mergeLoop_mem (p : Nat) :
    ∀ (rest : List PRange) (curr : PRange),
      List.Sorted leStart (curr :: rest) →
      (MemP p (mergeLoop curr rest) ↔ memRange p curr = true ∨ MemP p rest) := by
  intro rest
  induction rest with
  | nil =>
    intro curr _
    simp [mergeLoop, MemP]
  | cons next rest' ih =>
    intro curr h
    rcases List.sorted_cons.mp h with ⟨hcu, htail⟩
    have hcn : curr.1 ≤ next.1 := hcu next (List.mem_cons_self next rest')
    rw [show mergeLoop curr (next :: rest') =
      if succ16 curr.2 < next.1 then curr :: mergeLoop next rest'
      else if curr.2 < next.2 then mergeLoop (curr.1, next.2) rest'
      else mergeLoop curr rest' from rfl]
    by_cases h1 : succ16 curr.2 < next.1
    · rw [if_pos h1, MemP_cons, ih next htail, MemP_cons]
    · rw [if_neg h1]
      have hns : next.1 ≤ succ16 curr.2 := Nat.le_of_not_lt h1
      have hns' : next.1 ≤ curr.2 + 1 :=
        le_trans hns (Nat.mod_le (curr.2 + 1) 65536)
      by_cases h2 : curr.2 < next.2
      · rw [if_pos h2]
        have hsorted' : List.Sorted leStart ((curr.1, next.2) :: rest') := by
          rw [List.sorted_cons]
          exact ⟨fun b hb => hcu b (List.mem_cons_of_mem next hb),
            (List.sorted_cons.mp htail).2⟩
        rw [ih (curr.1, next.2) hsorted']
        have habsorb : memRange p (curr.1, next.2) = true ↔
            memRange p curr = true ∨ memRange p next = true := by
          rw [memRange_iff, memRange_iff, memRange_iff]
          constructor
          · rintro ⟨hl, hr⟩
            by_cases hp : p ≤ curr.2
            · exact Or.inl ⟨hl, hp⟩
            · exact Or.inr ⟨by omega, hr⟩
          · rintro (⟨ha, hb⟩ | ⟨ha, hb⟩)
            · exact ⟨ha, by omega⟩
            · exact ⟨le_trans hcn ha, hb⟩
        rw [habsorb, MemP_cons, or_assoc]
      · rw [if_neg h2]
        have hsorted'' : List.Sorted leStart (curr :: rest') := by
          rw [List.sorted_cons]
          exact ⟨fun b hb => hcu b (List.mem_cons_of_mem next hb),
            (List.sorted_cons.mp htail).2⟩
        rw [ih curr hsorted'', MemP_cons]
        have habs : memRange p next = true → memRange p curr = true := by
          rw [memRange_iff, memRange_iff]
          rintro ⟨ha, hb⟩
          exact ⟨le_trans hcn ha, by omega⟩
        tauto

theorem sortAndMergeRanges_mem (p : Nat) (l : List PRange) :
    MemP p (sortAndMergeRanges l) ↔ MemP p l := by
  unfold sortAndMergeRanges
  have hfil : MemP p (l.filter fun r => Nat.ble r.1 r.2) ↔ MemP p l := by
    constructor
    · rintro ⟨r, hr, hm⟩
      exact ⟨r, (List.mem_filter.mp hr).1, hm⟩
    · rintro ⟨r, hr, hm⟩
      refine ⟨r, List.mem_filter.mpr ⟨hr, ?_⟩, hm⟩
      rw [memRange_iff] at hm
      rw [Nat.ble_eq]
      exact le_trans hm.1 hm.2
  have hperm := sortByStart_perm (l.filter fun r => Nat.ble r.1 r.2)
  have hsort := sortByStart_sorted (l.filter fun r => Nat.ble r.1 r.2)
  cases hm : sortByStart (l.filter fun r => Nat.ble r.1 r.2) with
  | nil =>
    rw [hm] at hperm
    have hnil : (l.filter fun r => Nat.ble r.1 r.2) = [] :=
      List.Perm.eq_nil hperm.symm
    rw [← hfil, hnil]
  | cons c rest =>
    rw [hm] at hperm hsort
    rw [mergeLoop_mem p rest c hsort, ← MemP_cons, ← hfil]
    exact MemP_perm hperm p

theorem mergeLoop_canon :
    ∀ (rest : List PRange) (curr : PRange),
      List.Sorted leStart (curr :: rest) →
      (∀ r ∈ curr :: rest, r.1 ≤ r.2 ∧ r.2 ≤ 65535) →
      ∃ e tl, mergeLoop curr rest = (curr.1, e) :: tl ∧ curr.2 ≤ e ∧
        List.Pairwise mergedRel ((curr.1, e) :: tl) ∧
        (∀ r ∈ (curr.1, e) :: tl, r.1 ≤ r.2 ∧ r.2 ≤ 65535) := by
  intro rest
  induction rest with
  | nil =>
    intro curr _ hv
    refine ⟨curr.2, [], rfl, le_refl _, ?_, ?_⟩
    · exact List.pairwise_singleton mergedRel (curr.1, curr.2)
    · intro r hr
      rcases List.mem_singleton.mp hr with rfl
      exact hv curr (List.mem_cons_self curr [])
  | cons next rest' ih =>
    intro curr h hv
    rcases List.sorted_cons.mp h with ⟨hcu, htail⟩
    rw [show mergeLoop curr (next :: rest') =
      if succ16 curr.2 < next.1 then curr :: mergeLoop next rest'
      else if curr.2 < next.2 then mergeLoop (curr.1, next.2) rest'
      else mergeLoop curr rest' from rfl]
    by_cases h1 : succ16 curr.2 < next.1
    · rw [if_pos h1]
      rcases ih next htail
        (fun r hr => hv r (List.mem_cons_of_mem curr hr)) with
        ⟨e', tl', heq, hle, hpw, hv'⟩
      rw [heq]
      refine ⟨curr.2, (next.1, e') :: tl', rfl, le_refl _, ?_, ?_⟩
      · refine List.Pairwise.cons ?_ hpw
        intro b hb
        have hnb : next.1 ≤ b.1 := by
          rcases List.mem_cons.mp hb with hb | hb
          · rw [hb]
          · exact ((List.pairwise_cons.mp hpw).1 b hb).1
        constructor
        · exact le_trans (hcu next (List.mem_cons_self next rest')) hnb
        · by_cases hc : curr.2 = 65535
          · exact Or.inl hc
          · right
            have hcb : curr.2 ≤ 65535 :=
              (hv curr (List.mem_cons_self curr (next :: rest'))).2
            have : succ16 curr.2 = curr.2 + 1 := by
              unfold succ16
              exact Nat.mod_eq_of_lt (by omega)
            omega
      · intro r hr
        rcases List.mem_cons.mp hr with hr | hr
        · rw [hr]
          exact hv curr (List.mem_cons_self curr (next :: rest'))
        · exact hv' r hr
    · rw [if_neg h1]
      by_cases h2 : curr.2 < next.2
      · rw [if_pos h2]
        have hsorted' : List.Sorted leStart ((curr.1, next.2) :: rest') := by
          rw [List.sorted_cons]
          exact ⟨fun b hb => hcu b (List.mem_cons_of_mem next hb),
            (List.sorted_cons.mp htail).2⟩
        have hvalid' : ∀ r ∈ (curr.1, next.2) :: rest',
            r.1 ≤ r.2 ∧ r.2 ≤ 65535 := by
          intro r hr
          rcases List.mem_cons.mp hr with hr | hr
          · rw [hr]
            have hc := hv curr (List.mem_cons_self curr (next :: rest'))
            have hn := hv next
              (List.mem_cons_of_mem curr (List.mem_cons_self next rest'))
            exact ⟨by omega, hn.2⟩
          · exact hv r
              (List.mem_cons_of_mem curr (List.mem_cons_of_mem next hr))
        rcases ih (curr.1, next.2) hsorted' hvalid' with
          ⟨e', tl', heq, hle, hpw, hv'⟩
        exact ⟨e', tl', heq, by omega, hpw, hv'⟩
      · rw [if_neg h2]
        have hsorted'' : List.Sorted leStart (curr :: rest') := by
          rw [List.sorted_cons]
          exact ⟨fun b hb => hcu b (List.mem_cons_of_mem next hb),
            (List.sorted_cons.mp htail).2⟩
        have hvalid'' : ∀ r ∈ curr :: rest', r.1 ≤ r.2 ∧ r.2 ≤ 65535 := by
          intro r hr
          rcases List.mem_cons.mp hr with hr | hr
          · rw [hr]
            exact hv curr (List.mem_cons_self curr (next :: rest'))
          · exact hv r
              (List.mem_cons_of_mem curr (List.mem_cons_of_mem next hr))
        exact ih curr hsorted'' hvalid''

theorem sortAndMergeRanges_canon (l : List PRange)
    (hv : ∀ r ∈ l, r.1 ≤ 65535 ∧ r.2 ≤ 65535) :
    List.Pairwise mergedRel (sortAndMergeRanges l) ∧
    (∀ r ∈ sortAndMergeRanges l, r.1 ≤ r.2 ∧ r.2 ≤ 65535) := by
  unfold sortAndMergeRanges
  have hperm := sortByStart_perm (l.filter fun r => Nat.ble r.1 r.2)
  have hsort := sortByStart_sorted (l.filter fun r => Nat.ble r.1 r.2)
  cases hm : sortByStart (l.filter fun r => Nat.ble r.1 r.2) with
  | nil => exact ⟨List.Pairwise.nil, by simp⟩
  | cons c rest =>
    rw [hm] at hperm hsort
    have hv2 : ∀ r ∈ c :: rest, r.1 ≤ r.2 ∧ r.2 ≤ 65535 := by
      intro r hr
      have hmem := hperm.mem_iff.mp hr
      rcases List.mem_filter.mp hmem with ⟨hrl, hrb⟩
      rw [Nat.ble_eq] at hrb
      exact ⟨hrb, (hv r hrl).2⟩
    rcases mergeLoop_canon rest c hsort hv2 with ⟨e, tl, heq, _, hpw, hv'⟩
    dsimp only
    rw [heq]
    exact ⟨hpw, hv'⟩

theorem containsInner_consumed (r : PRange) :
    ∀ (o o' : List PRange), containsInner r o = some o' →
      ∃ pre, o = pre ++ o' ∧ ∀ x ∈ pre, r.1 ≤ x.1 ∧ x.2 ≤ r.2 := by
  intro o
  induction o with
  | nil =>
    intro o' h
    injection h with h
    subst h
    exact ⟨[], rfl, by simp⟩
  | cons oh os ih =>
    intro o' h
    rw [show containsInner r (oh :: os) =
      if oh.1 < r.1 then none
      else if r.2 < oh.1 then some (oh :: os)
      else if r.2 < oh.2 then none
      else containsInner r os from rfl] at h
    by_cases h1 : oh.1 < r.1
    · rw [if_pos h1] at h
      exact absurd h (by simp)
    · rw [if_neg h1] at h
      by_cases h2 : r.2 < oh.1
      · rw [if_pos h2] at h
        injection h with h
        subst h
        exact ⟨[], rfl, by simp⟩
      · rw [if_neg h2] at h
        by_cases h3 : r.2 < oh.2
        · rw [if_pos h3] at h
          exact absurd h (by simp)
        · rw [if_neg h3] at h
          rcases ih o' h with ⟨pre, hpre0, hpre⟩
          refine ⟨oh :: pre, by rw [List.cons_append, ← hpre0], ?_⟩
          intro x hx
          rcases List.mem_cons.mp hx with hx | hx
          · rw [hx]
            exact ⟨Nat.le_of_not_lt h1, Nat.le_of_not_lt h3⟩
          · exact hpre x hx

theorem containsWalk_sound :
    ∀ (t o : List PRange), containsWalk t o = true →
      ∀ p, MemP p o → MemP p t := by
  intro t
  induction t with
  | nil =>
    intro o h p hp
    have hnil : o = [] := by
      cases o with
      | nil => rfl
      | cons x xs => exact absurd h (by simp [containsWalk])
    subst hnil
    rcases hp with ⟨r, hr, _⟩
    exact absurd hr (List.not_mem_nil r)
  | cons r rs ih =>
    intro o h p hp
    rw [show containsWalk (r :: rs) o =
      match containsInner r o with
      | none => false
      | some o' => containsWalk rs o' from rfl] at h
    cases hin : containsInner r o with
    | none => rw [hin] at h; exact absurd h (by simp)
    | some o' =>
      rw [hin] at h
      rcases containsInner_consumed r o o' hin with ⟨pre, hsplit, hpre⟩
      rcases hp with ⟨x, hx, hmx⟩
      rw [hsplit] at hx
      rcases List.mem_append.mp hx with hx | hx
      · rcases hpre x hx with ⟨ha, hb⟩
        rw [memRange_iff] at hmx
        refine ⟨r, List.mem_cons_self r rs, ?_⟩
        rw [memRange_iff]
        exact ⟨le_trans ha hmx.1, le_trans hmx.2 hb⟩
      · rcases ih o' h p ⟨x, hx, hmx⟩ with ⟨y, hy, hmy⟩
        exact ⟨y, List.mem_cons_of_mem r hy, hmy⟩

theorem containsInner_complete (r : PRange) (rs : List PRange)
    (hpw : List.Pairwise mergedRel (r :: rs)) :
    ∀ (o : List PRange), List.Sorted leStart o →
      (∀ x ∈ o, x.1 ≤ x.2 ∧ x.2 ≤ 65535) →
      (∀ p, MemP p o → MemP p (r :: rs)) →
      ∃ o', containsInner r o = some o' ∧ o' <:+ o ∧
        ∀ x ∈ o', r.2 < x.1 := by
  intro o
  induction o with
  | nil =>
    intro _ _ _
    exact ⟨[], rfl, List.suffix_refl [], by simp⟩
  | cons oh os ih =>
    intro hs hv hsub
    have hohne : oh.1 ≤ oh.2 := (hv oh (List.mem_cons_self oh os)).1
    have hn1 : ¬ oh.1 < r.1 := by
      intro hlt
      have hm : MemP oh.1 (oh :: os) :=
        ⟨oh, List.mem_cons_self oh os, by
          rw [memRange_iff]; exact ⟨le_refl _, hohne⟩⟩
      rcases hsub oh.1 hm with ⟨y, hy, hmy⟩
      rw [memRange_iff] at hmy
      rcases List.mem_cons.mp hy with hy | hy
      · rw [hy] at hmy
        omega
      · have hry : r.1 ≤ y.1 := ((List.pairwise_cons.mp hpw).1 y hy).1
        omega
    rw [show containsInner r (oh :: os) =
      if oh.1 < r.1 then none
      else if r.2 < oh.1 then some (oh :: os)
      else if r.2 < oh.2 then none
      else containsInner r os from rfl, if_neg hn1]
    by_cases h2 : r.2 < oh.1
    · rw [if_pos h2]
      refine ⟨oh :: os, rfl, List.suffix_refl _, ?_⟩
      intro x hx
      rcases List.mem_cons.mp hx with hx | hx
      · rw [hx]; exact h2
      · have : oh.1 ≤ x.1 := (List.sorted_cons.mp hs).1 x hx
        omega
    · rw [if_neg h2]
      have hn3 : ¬ r.2 < oh.2 := by
        intro hlt
        have hm : MemP (r.2 + 1) (oh :: os) :=
          ⟨oh, List.mem_cons_self oh os, by
            rw [memRange_iff]; constructor <;> omega⟩
        rcases hsub (r.2 + 1) hm with ⟨y, hy, hmy⟩
        rw [memRange_iff] at hmy
        rcases List.mem_cons.mp hy with hy | hy
        · rw [hy] at hmy
          omega
        · rcases (List.pairwise_cons.mp hpw).1 y hy with ⟨_, hgap⟩
          have hohb : oh.2 ≤ 65535 := (hv oh (List.mem_cons_self oh os)).2
          rcases hgap with h65 | hgap <;> omega
      rw [if_neg hn3]
      rcases ih (List.sorted_cons.mp hs).2
        (fun x hx => hv x (List.mem_cons_of_mem oh hx))
        (fun p hp => hsub p (by
          rcases hp with ⟨x, hx, hmx⟩
          exact ⟨x, List.mem_cons_of_mem oh hx, hmx⟩)) with
        ⟨o', ho', hsuf, hgt⟩
      exact ⟨o', ho', hsuf.trans (List.suffix_cons oh os), hgt⟩

theorem containsWalk_complete :
    ∀ (t o : List PRange), List.Pairwise mergedRel t →
      List.Sorted leStart o → (∀ x ∈ o, x.1 ≤ x.2 ∧ x.2 ≤ 65535) →
      (∀ p, MemP p o → MemP p t) → containsWalk t o = true := by
  intro t
  induction t with
  | nil =>
    intro o _ _ hv hsub
    cases o with
    | nil => rfl
    | cons oh os =>
      have hm : MemP oh.1 (oh :: os) :=
        ⟨oh, List.mem_cons_self oh os, by
          rw [memRange_iff]
          exact ⟨le_refl _, (hv oh (List.mem_cons_self oh os)).1⟩⟩
      rcases hsub oh.1 hm with ⟨y, hy, _⟩
      exact absurd hy (List.not_mem_nil y)
  | cons r rs ih =>
    intro o hpw hs hv hsub
    rcases containsInner_complete r rs hpw o hs hv hsub with
      ⟨o', ho', hsuf, hgt⟩
    rw [show containsWalk (r :: rs) o =
      match containsInner r o with
      | none => false
      | some o' => containsWalk rs o' from rfl, ho']
    refine ih o' (List.pairwise_cons.mp hpw).2
      (List.Pairwise.sublist hsuf.sublist hs)
      (fun x hx => hv x (List.Sublist.mem hx hsuf.sublist)) ?_
    intro p hp
    rcases hp with ⟨x, hx, hmx⟩
    have hpo : MemP p o := ⟨x, List.Sublist.mem hx hsuf.sublist, hmx⟩
    rcases hsub p hpo with ⟨y, hy, hmy⟩
    rcases List.mem_cons.mp hy with hy | hy
    · rw [memRange_iff] at hmy hmx
      have hgtx := hgt x hx
      rw [hy] at hmy
      omega
    · exact ⟨y, hy, hmy⟩

theorem keysOf_updateEntry {V : Type} (m : List (V4Net × V)) (k : V4Net)
    (d : V) (f : V → V) (q : V4Net) :
    q ∈ keysOf (updateEntry m k d f) ↔ q ∈ keysOf m ∨ q = k := by
  unfold updateEntry
  by_cases h : m.any (fun kv => kv.1 == k) = true
  · rw [if_pos h]
    have hkeys : keysOf (m.map fun kv => if kv.1 == k then (kv.1, f kv.2) else kv)
        = keysOf m := by
      unfold keysOf
      rw [List.map_map]
      congr 1
      funext kv
      simp only [Function.comp_apply]
      split <;> rfl
    rw [hkeys]
    constructor
    · exact Or.inl
    · rintro (hq | rfl)
      · exact hq
      · rcases List.any_eq_true.mp h with ⟨kv, hkv, hbeq⟩
        exact List.mem_map.mpr ⟨kv, hkv, by simpa using hbeq⟩
  · rw [if_neg h]
    unfold keysOf
    simp

theorem foldl_updateEntry_keys {V : Type} (d : V) (f : V → V) :
    ∀ (ks : List V4Net) (m0 : List (V4Net × V)) (q : V4Net),
      q ∈ keysOf (ks.foldl (fun m k => updateEntry m k d f) m0) ↔
        q ∈ keysOf m0 ∨ q ∈ ks := by
  intro ks
  induction ks with
  | nil => intro m0 q; simp
  | cons k ks ih =>
    intro m0 q
    rw [List.foldl_cons, ih, keysOf_updateEntry]
    simp only [List.mem_cons]
    tauto

theorem applyMatchStep_keys_dest (external : External)
    (st : List (V4Net × BpfDestConfig) × List (V4Net × BpfExternalConfig))
    (m q : V4Net) :
    q ∈ keysOf (applyMatchStep external st m).1 ↔ q ∈ keysOf st.1 ∨ q = m := by
  unfold applyMatchStep
  dsimp only
  exact keysOf_updateEntry st.1 m BpfDestConfig.dfl _ q

theorem applyMatchStep_keys_ext (external : External)
    (st : List (V4Net × BpfDestConfig) × List (V4Net × BpfExternalConfig))
    (m q : V4Net) :
    q ∈ keysOf (applyMatchStep external st m).2 ↔ q ∈ keysOf st.2 ∨ q = m := by
  unfold applyMatchStep
  dsimp only
  exact keysOf_updateEntry st.2 m BpfExternalConfig.dfl _ q

theorem applyMatches_keys (external : External) :
    ∀ (ms : List V4Net)
      (st : List (V4Net × BpfDestConfig) × List (V4Net × BpfExternalConfig))
      (q : V4Net),
      (q ∈ keysOf (ms.foldl (applyMatchStep external) st).1 ↔
        q ∈ keysOf st.1 ∨ q ∈ ms) ∧
      (q ∈ keysOf (ms.foldl (applyMatchStep external) st).2 ↔
        q ∈ keysOf st.2 ∨ q ∈ ms) := by
  intro ms
  induction ms with
  | nil => intro st q; simp
  | cons m ms ih =>
    intro st q
    rw [List.foldl_cons]
    rcases ih (applyMatchStep external st m) q with ⟨ih1, ih2⟩
    constructor
    · rw [ih1, applyMatchStep_keys_dest]
      simp only [List.mem_cons]
      tauto
    · rw [ih2, applyMatchStep_keys_ext]
      simp only [List.mem_cons]
      tauto

theorem foldl_initStep_keys (externals : List External) :
    ∀ (st : InitState) (q : V4Net),
      (q ∈ keysOf (externals.foldl initStep st).dest_config ↔
        q ∈ keysOf st.dest_config ∨
          ∃ pr ∈ matchesTrace externals st.addresses_set, q ∈ pr.2) ∧
      (q ∈ keysOf (externals.foldl initStep st).external_config ↔
        q ∈ keysOf st.external_config ∨
          ∃ pr ∈ matchesTrace externals st.addresses_set, q ∈ pr.2) := by
  induction externals with
  | nil => intro st q; simp [matchesTrace]
  | cons e es ih =>
    intro st q
    rw [List.foldl_cons]
    rcases ih (initStep st e) q with ⟨ih1, ih2⟩
    have hdest : keysOf (initStep st e).dest_config =
        keysOf ((matchesOf e st.addresses_set).foldl
          (applyMatchStep e) (st.dest_config, st.external_config)).1 := rfl
    have hext : keysOf (initStep st e).external_config =
        keysOf ((matchesOf e st.addresses_set).foldl
          (applyMatchStep e) (st.dest_config, st.external_config)).2 := rfl
    have hset : (initStep st e).addresses_set =
        st.addresses_set.filter
          (fun a => !(matchesOf e st.addresses_set).contains a) := rfl
    rcases applyMatches_keys e (matchesOf e st.addresses_set)
      (st.dest_config, st.external_config) q with ⟨h1, h2⟩
    have htrace : matchesTrace (e :: es) st.addresses_set =
        (e, matchesOf e st.addresses_set) ::
          matchesTrace es (st.addresses_set.filter
            (fun a => !(matchesOf e st.addresses_set).contains a)) := rfl
    constructor
    · rw [ih1, hdest, h1, hset, htrace, List.exists_mem_cons_iff]
      dsimp only
      exact or_assoc
    · rw [ih2, hext, h2, hset, htrace, List.exists_mem_cons_iff]
      dsimp only
      exact or_assoc

theorem mem_insertNetByAddr (x : V4Net) :
    ∀ (l : List V4Net) (y : V4Net), y ∈ insertNetByAddr x l ↔ y = x ∨ y ∈ l := by
  intro l
  induction l with
  | nil => intro y; simp [insertNetByAddr]
  | cons z zs ih =>
    intro y
    unfold insertNetByAddr
    split
    · rw [List.mem_cons, ih, List.mem_cons]
      tauto
    · simp only [List.mem_cons]

theorem mem_sortNets :
    ∀ (l acc : List V4Net) (y : V4Net),
      y ∈ l.foldl (fun acc x => insertNetByAddr x acc) acc ↔ y ∈ acc ∨ y ∈ l := by
  intro l
  induction l with
  | nil => intro acc y; simp
  | cons x xs ih =>
    intro acc y
    rw [List.foldl_cons, ih, mem_insertNetByAddr, List.mem_cons]
    tauto

theorem mem_dedupNets :
    ∀ (l seen : List V4Net) (y : V4Net), y ∈ dedupNets seen l → y ∈ l := by
  intro l
  induction l with
  | nil => intro seen y h; exact absurd h (by simp [dedupNets])
  | cons x xs ih =>
    intro seen y h
    rw [show dedupNets seen (x :: xs) = if seen.contains x then
      dedupNets seen xs else x :: dedupNets (x :: seen) xs from rfl] at h
    by_cases hc : seen.contains x = true
    · rw [if_pos hc] at h
      exact List.mem_cons_of_mem x (ih seen y h)
    · rw [if_neg hc] at h
      rcases List.mem_cons.mp h with h1 | h2
      · rw [h1]; exact List.mem_cons_self x xs
      · exact List.mem_cons_of_mem x (ih (x :: seen) y h2)

theorem mem_netSetOfList (l : List V4Net) (y : V4Net) :
    y ∈ netSetOfList l → y ∈ l := by
  intro h
  have h1 := mem_dedupNets _ _ _ h
  rw [mem_sortNets] at h1
  simpa using h1

theorem matchesOf_width (e : External) (s : List V4Net)
    (hs : ∀ a ∈ s, a.2 = 32) : ∀ q ∈ matchesOf e s, q.2 = 32 := by
  intro q hq
  unfold matchesOf at hq
  cases he : e.address with
  | static address =>
    rw [he] at hq
    cases address with
    | v4 a =>
      simp only [fromIpAddr] at hq
      split at hq
      · rcases List.mem_singleton.mp hq with rfl; rfl
      · exact absurd hq (by simp)
    | v6 a => exact absurd hq (by simp [fromIpAddr])
  | matcher ma =>
    rw [he] at hq
    exact hs q (List.mem_filter.mp hq).1

theorem matchesTrace_width :
    ∀ (externals : List External) (s : List V4Net),
      (∀ a ∈ s, a.2 = 32) →
      ∀ pr ∈ matchesTrace externals s, ∀ q ∈ pr.2, q.2 = 32 := by
  intro externals
  induction externals with
  | nil => intro s _ pr hpr; exact absurd hpr (by simp [matchesTrace])
  | cons e es ih =>
    intro s hs pr hpr q hq
    rw [show matchesTrace (e :: es) s = (e, matchesOf e s) ::
      matchesTrace es (s.filter fun x => !(matchesOf e s).contains x)
      from rfl] at hpr
    rcases List.mem_cons.mp hpr with rfl | h
    · exact matchesOf_width e s hs q hq
    · exact ih _ (fun a ha => hs a (List.mem_filter.mp ha).1) pr h q hq

theorem matchesTrace_matcher_sub :
    ∀ (externals : List External) (s : List V4Net) (pr : External × List V4Net),
      pr ∈ matchesTrace externals s →
      ∀ ma, pr.1.address = .matcher ma → ∀ a ∈ pr.2, a ∈ s := by
  intro externals
  induction externals with
  | nil => intro s pr hpr; exact absurd hpr (by simp [matchesTrace])
  | cons e es ih =>
    intro s pr hpr ma hm a ha
    rw [show matchesTrace (e :: es) s = (e, matchesOf e s) ::
      matchesTrace es (s.filter fun x => !(matchesOf e s).contains x)
      from rfl] at hpr
    rcases List.mem_cons.mp hpr with rfl | h
    · unfold matchesOf at ha
      rw [hm] at ha
      exact (List.mem_filter.mp ha).1
    · exact (List.mem_filter.mp (ih _ pr h ma hm a ha)).1

theorem foldl_initStep_external_addr (externals : List External) :
    ∀ st : InitState, (externals.foldl initStep st).external_addr =
      match st.external_addr with
      | some a => some a
      | none => firstExternalAddr externals st.addresses_set := by
  induction externals with
  | nil =>
    intro st
    cases h : st.external_addr <;> simp [firstExternalAddr, h]
  | cons e es ih =>
    intro st
    rw [List.foldl_cons, ih]
    cases h : st.external_addr with
    | some a => simp [initStep, h]
    | none =>
      cases hs : e.no_snat with
      | true => simp [initStep, firstExternalAddr, h, hs]
      | false =>
        cases hm : matchesOf e st.addresses_set with
        | nil => simp [initStep, firstExternalAddr, h, hs, hm]
        | cons m ms => simp [initStep, firstExternalAddr, h, hs, hm]

theorem runtimeInit_external_addr (ns : List V4Net) (externals : List External)
    (addrs : List V4Net) :
    (runtimeInit [] [] ns externals addrs).external_addr =
      (firstExternalAddr externals (netSetOfList addrs)).getD netUnspecified := by
  unfold runtimeInit
  dsimp only
  rw [foldl_initStep_external_addr]

/-! ## Theorems for the claims -/

/-- C9: in `ConstConfig::apply`, whenever `timeout_pkt_default` is set to
some value `v`, `v` is written into the `TIMEOUT_PKT_MIN` read-only slot,
overwriting any value written there from `timeout_pkt_min`; and the
`TIMEOUT_PKT_DEFAULT` slot is never written by `apply` for any input — it
retains its prior value. -/
theorem claim9_timeout_pkt_default_slot (c : ConstConfig) (r : Rodata) :
    (c.apply r).TIMEOUT_PKT_DEFAULT = r.TIMEOUT_PKT_DEFAULT ∧
    (∀ v, c.timeout_pkt_default = some v → (c.apply r).TIMEOUT_PKT_MIN = v) := by
  constructor
  · show (applyOpt _ _ _).TIMEOUT_PKT_DEFAULT = _
    repeat rw [applyOpt_pkt_default _ _ (fun _ => rfl)]
  · intro v hv
    show (applyOpt _ _ _).TIMEOUT_PKT_MIN = v
    rw [applyOpt_pkt_min _ _ (fun _ => rfl),
      applyOpt_pkt_min _ _ (fun _ => rfl), hv]
    rfl

/-- C9 witness: a concrete configuration exercising the guarded
conclusion, with `timeout_pkt_min` also present and overwritten. -/
theorem claim9_witness :
    ((claim9C.apply claim9R).TIMEOUT_PKT_DEFAULT
        = claim9R.TIMEOUT_PKT_DEFAULT) ∧
    (claim9C.apply claim9R).TIMEOUT_PKT_MIN = 9 :=
  ⟨(claim9_timeout_pkt_default_slot claim9C claim9R).1,
    (claim9_timeout_pkt_default_slot claim9C claim9R).2 9 rfl⟩

/-- C10: when the interface is configured from CLI flags, NAT44 is
enabled iff `--nat44` is passed or `--nat66` is not passed; with neither
NAT flag NAT44 is enabled by default, and passing only `--nat66` disables
NAT44. -/
theorem claim10_cli_nat44 :
    (∀ args : Args, (cliNatSelection args).nat44 = true ↔
      (args.nat44 = true ∨ args.nat66 = false)) ∧
    (cliNatSelection ⟨none, some 2, none, false, false⟩).nat44 = true ∧
    (cliNatSelection ⟨none, some 2, none, false, true⟩).nat44 = false := by
  refine ⟨fun args => ?_, rfl, rfl⟩
  cases h44 : args.nat44 <;> cases h66 : args.nat66 <;>
    simp [cliNatSelection, h44, h66]

/-- C5: for all `u16` port-range lists A and B, `contains(A, B)` returns
true iff every port in some range of B also lies in some range of A
(each list read as the union of its inclusive intervals); consequently
`contains(A, A)` holds for every A. -/
theorem claim5_contains_iff_subset (A B : List PRange)
    (hA : ∀ r ∈ A, r.1 ≤ 65535 ∧ r.2 ≤ 65535)
    (hB : ∀ r ∈ B, r.1 ≤ 65535 ∧ r.2 ≤ 65535) :
    (containsRanges A B = true ↔
      ∀ p, memRanges p B = true → memRanges p A = true) ∧
    containsRanges A A = true := by
  have main : ∀ (X Y : List PRange),
      (∀ r ∈ X, r.1 ≤ 65535 ∧ r.2 ≤ 65535) →
      (∀ r ∈ Y, r.1 ≤ 65535 ∧ r.2 ≤ 65535) →
      (containsRanges X Y = true ↔
        ∀ p, memRanges p Y = true → memRanges p X = true) := by
    intro X Y hX hY
    constructor
    · intro h p hpY
      rw [memRanges_iff] at hpY ⊢
      have h1 : MemP p (sortAndMergeRanges Y) :=
        (sortAndMergeRanges_mem p Y).mpr hpY
      have h2 := containsWalk_sound (sortAndMergeRanges X)
        (sortAndMergeRanges Y) h p h1
      exact (sortAndMergeRanges_mem p X).mp h2
    · intro hsub
      rcases sortAndMergeRanges_canon X hX with ⟨hpwX, _⟩
      rcases sortAndMergeRanges_canon Y hY with ⟨hpwY, hvY⟩
      refine containsWalk_complete (sortAndMergeRanges X)
        (sortAndMergeRanges Y) hpwX (hpwY.imp fun h => h.1) hvY ?_
      intro p hp
      have h1 : MemP p Y := (sortAndMergeRanges_mem p Y).mp hp
      have h2 : MemP p X := by
        rw [← memRanges_iff]
        exact hsub p ((memRanges_iff p Y).mpr h1)
      exact (sortAndMergeRanges_mem p X).mpr h2
  exact ⟨main A B hA hB, (main A A hA hA).mpr fun p h => h⟩

/-- C5 witness: the containment scenario of the source's unit test,
through the proved equivalence. -/
theorem claim5_witness :
    (containsRanges [(200, 300), (0, 100), (50, 150), (250, 290)] [(0, 100)]
        = true ↔
      ∀ p, memRanges p [(0, 100)] = true →
        memRanges p [(200, 300), (0, 100), (50, 150), (250, 290)] = true) ∧
    containsRanges [(200, 300), (0, 100), (50, 150), (250, 290)]
      [(200, 300), (0, 100), (50, 150), (250, 290)] = true :=
  claim5_contains_iff_subset
    [(200, 300), (0, 100), (50, 150), (250, 290)] [(0, 100)]
    (by decide) (by decide)

/-- C6 / code bug: on the input `[1..=65535, 2..=3]` the merge keeps two
overlapping ranges, because the `u16` successor of the upper bound 65535
wraps to zero in the gap test (in a debug build the addition panics
instead), so the normalized output is not pairwise disjoint with gap at
least one as the claim requires; sortedness and the denoted port set are
nevertheless preserved on this input. -/
theorem claim6_overflow_failing_input :
    sortAndMergeRanges [(1, 65535), (2, 3)] = [(1, 65535), (2, 3)] ∧
    ¬ List.Pairwise (fun r s : PRange => r.2 + 1 < s.1)
      [((1 : Nat), (65535 : Nat)), (2, 3)] := by
  constructor
  · decide
  · decide

/-- C2: for every builder run, the resulting `external_addr` equals the
first matched host-width prefix of the first external in list order that
is not `no_snat` and whose matches are non-empty (the `firstExternalAddr`
recursion over the same evolving address set), or the family's
unspecified host-width prefix when no such external exists; in
particular, for the externals `[{Static(1.2.3.4), no_snat=true},
{Static(5.6.7.8)}]` the result is 5.6.7.8/32. -/
theorem claim2_external_addr_selection :
    (∀ (ns : List V4Net) (externals : List External) (addrs : List Nat),
      (RuntimeV4Config.fromParts ns externals addrs).external_addr =
        (firstExternalAddr externals
          (netSetOfList (addrs.map hostNet))).getD netUnspecified) ∧
    (RuntimeV4Config.fromParts [] [s4External1, s4External2] []).external_addr
      = (addr5678, 32) := by
  constructor
  · intro ns externals addrs
    exact runtimeInit_external_addr ns externals (addrs.map hostNet)
  · decide

/-- C3: for every builder run, the key set of the resulting dest-config
map is the union of the given no-snat destination prefixes and the key
set of the resulting external-config map, and every external-config key
is a host-width prefix. -/
theorem claim3_dest_key_union (ns : List V4Net) (externals : List External)
    (addrs : List Nat) :
    (∀ k, k ∈ keysOf (RuntimeV4Config.fromParts ns externals addrs).dest_config
      ↔ k ∈ ns ∨
        k ∈ keysOf (RuntimeV4Config.fromParts ns externals addrs).external_config) ∧
    (∀ k, k ∈ keysOf (RuntimeV4Config.fromParts ns externals addrs).external_config
      → k.2 = 32) := by
  rcases hjoint : foldl_initStep_keys externals
    ⟨ns.foldl (fun m network => updateEntry m network BpfDestConfig.dfl fun v =>
        { v with no_snat := true }) [],
      [], netSetOfList (addrs.map hostNet), none⟩ with h
  constructor
  · intro k
    rcases h k with ⟨h1, h2⟩
    have hd : keysOf (RuntimeV4Config.fromParts ns externals addrs).dest_config
        = keysOf (externals.foldl initStep
          ⟨ns.foldl (fun m network => updateEntry m network BpfDestConfig.dfl
              fun v => { v with no_snat := true }) [],
            [], netSetOfList (addrs.map hostNet), none⟩).dest_config := rfl
    have he : keysOf (RuntimeV4Config.fromParts ns externals addrs).external_config
        = keysOf (externals.foldl initStep
          ⟨ns.foldl (fun m network => updateEntry m network BpfDestConfig.dfl
              fun v => { v with no_snat := true }) [],
            [], netSetOfList (addrs.map hostNet), none⟩).external_config := rfl
    rw [hd, he, h1, h2]
    dsimp only
    rw [foldl_updateEntry_keys]
    simp only [keysOf, List.map_nil, List.not_mem_nil, false_or]
  · intro k hk
    rcases h k with ⟨_, h2⟩
    have he : keysOf (RuntimeV4Config.fromParts ns externals addrs).external_config
        = keysOf (externals.foldl initStep
          ⟨ns.foldl (fun m network => updateEntry m network BpfDestConfig.dfl
              fun v => { v with no_snat := true }) [],
            [], netSetOfList (addrs.map hostNet), none⟩).external_config := rfl
    rw [he, h2] at hk
    dsimp only at hk
    rcases hk with hk | ⟨pr, hpr, hq⟩
    · exact absurd hk (by simp [keysOf])
    · refine matchesTrace_width externals (netSetOfList (addrs.map hostNet))
        ?_ pr hpr k hq
      intro a ha
      rcases List.mem_map.mp (mem_netSetOfList _ a ha) with ⟨b, _, hb⟩
      rw [← hb]
      rfl

/-- C4 counterexample: two static externals naming the same address both
produce that address in their matches, and the later one does write the
address's dest-config entry — the final entry carries the second
external's hairpin setting, not the first's. -/
theorem claim4_counterexample :
    ((matchesTrace [dupExternal1, dupExternal2] (netSetOfList [])).map Prod.snd
      = [[(addr1234, 32)], [(addr1234, 32)]]) ∧
    lookupNet
      (RuntimeV4Config.fromParts [] [dupExternal1, dupExternal2] []).dest_config
      (addr1234, 32) = some ⟨false, true⟩ := by
  constructor
  · decide
  · decide

/-- C4 amended: an address claimed by the matches of an earlier external
is never produced again by a later external whose address form is a
matcher (the matches are removed from the remaining set); a later static
external, however, can produce an already-claimed address again. -/
theorem claim4_amended_matcher_claims :
    ∀ (externals : List External) (s : List V4Net),
      (matchesTrace externals s).Pairwise
        (fun p q => ∀ ma, q.1.address = .matcher ma →
          ∀ a ∈ p.2, a ∉ q.2) := by
  intro externals
  induction externals with
  | nil => intro s; simp [matchesTrace]
  | cons e es ih =>
    intro s
    rw [show matchesTrace (e :: es) s = (e, matchesOf e s) ::
      matchesTrace es (s.filter fun x => !(matchesOf e s).contains x)
      from rfl]
    refine List.Pairwise.cons ?_ (ih _)
    intro pr hpr ma hm a ha hcontra
    have hmem := matchesTrace_matcher_sub es _ pr hpr ma hm a hcontra
    have := (List.mem_filter.mp hmem).2
    rw [Bool.not_eq_true', ← Bool.not_eq_true, List.elem_iff] at this
    exact this ha

/-- C7: for a raw external entry and defaults whose five range lists
parse successfully, an empty normalized ICMP list forces the resulting
external's ICMP-in and ICMP-out lists to be empty (whatever the raw entry
specified) and the entry validates; with a non-empty ICMP list the
normalizer fails with the in- or out-containment error exactly when the
ICMP list does not contain the ICMP-in list or the ICMP-out list under
the algebra's containment, and otherwise returns the validated
external. -/
theorem claim7_icmp_coercion_containment (e : ConfigExternal)
    (d : ConfigDefaults) (t u i iin iout : List PRange)
    (ht : tryFromRanges (e.tcp_ranges.getD d.tcp_ranges) false = .ok t)
    (hu : tryFromRanges (e.udp_ranges.getD d.udp_ranges) false = .ok u)
    (hi : tryFromRanges (e.icmp_ranges.getD d.icmp_ranges) true = .ok i)
    (hin : tryFromRanges (e.icmp_in_ranges.getD d.icmp_in_ranges) true = .ok iin)
    (hout : tryFromRanges (e.icmp_out_ranges.getD d.icmp_out_ranges) true
      = .ok iout) :
    (i = [] → External.tryFrom e d =
      .ok ⟨e.address, e.no_snat, e.no_hairpin, t, u, [], [], []⟩) ∧
    (i ≠ [] → External.tryFrom e d =
      (if !(containsRanges i iin) then .error .icmpInNotContained
       else if !(containsRanges i iout) then .error .icmpOutNotContained
       else .ok ⟨e.address, e.no_snat, e.no_hairpin, t, u, i, iin, iout⟩)) := by
  constructor
  · intro hnil
    subst hnil
    unfold External.tryFrom
    rw [ht, hu, hi, hin, hout]
    rfl
  · intro hne
    cases i with
    | nil => exact absurd rfl hne
    | cons ihd itl =>
      unfold External.tryFrom
      rw [ht, hu, hi, hin, hout]
      rfl

/-- C7 witness: a concrete entry relying on the defaults, with a
non-empty ICMP list containing both directional lists, validates to the
expected external. -/
theorem claim7_witness :
    External.tryFrom w7External w7Defaults =
      .ok ⟨.static (.v4 addr1234), false, false, [(1, 2)], [(1, 2)],
        [(0, 5)], [(0, 3)], [(0, 5)]⟩ := by
  have h := (claim7_icmp_coercion_containment w7External w7Defaults
    [(1, 2)] [(1, 2)] [(0, 5)] [(0, 3)] [(0, 5)]
    rfl rfl rfl rfl rfl).2 (by decide)
  rw [h]
  rfl

/-- C8: the stale-flow purger collects exactly the binding keys selected
by the claim's predicate (original-direction keys by their value's family
flag and `to_addr`, reply-direction keys by their own family flag and
`from_addr`), bulk-deletes them in a single batch when any were
collected, then collects exactly the connection-tracking keys whose
family flag matches and whose external source address equals the target
and bulk-deletes those in a single batch after the binding batch; the
maps afterwards retain precisely the unselected entries, so nothing else
is deleted. -/
theorem claim8_stale_flow_purger
    (binding : List (MapBindingKey × MapBindingValue)) (ct : List MapCtKey)
    (a : IpAddress) :
    (∀ k, k ∈ collectBindingKeys binding a ↔
      ∃ v, (k, v) ∈ binding ∧ BindingHit a k v) ∧
    (∀ k, k ∈ collectCtKeys ct a ↔ k ∈ ct ∧ CtHit a k) ∧
    ((removeBindingAndCtEntries binding ct a).1 =
      (if (collectBindingKeys binding a).isEmpty then []
       else [.bindingBatch (collectBindingKeys binding a)]) ++
      (if (collectCtKeys ct a).isEmpty then []
       else [.ctBatch (collectCtKeys ct a)])) ∧
    (∀ kv, kv ∈ (removeBindingAndCtEntries binding ct a).2.1 ↔
      kv ∈ binding ∧ ¬ ∃ v, (kv.1, v) ∈ binding ∧ BindingHit a kv.1 v) ∧
    (∀ k, k ∈ (removeBindingAndCtEntries binding ct a).2.2 ↔
      k ∈ ct ∧ ¬ CtHit a k) := by
  have hbind : ∀ k, k ∈ collectBindingKeys binding a ↔
      ∃ v, (k, v) ∈ binding ∧ BindingHit a k v := by
    intro k
    rw [collectBindingKeys_eq]
    simp only [List.mem_map, List.mem_filter]
    constructor
    · rintro ⟨kv, ⟨hmem, hsel⟩, hfst⟩
      subst hfst
      exact ⟨kv.2, hmem, (bindingHitB_iff a kv).mp hsel⟩
    · rintro ⟨v, hmem, hsel⟩
      exact ⟨(k, v), ⟨hmem, (bindingHitB_iff a (k, v)).mpr hsel⟩, rfl⟩
  have hct : ∀ k, k ∈ collectCtKeys ct a ↔ k ∈ ct ∧ CtHit a k := by
    intro k
    rw [collectCtKeys_eq]
    simp [List.mem_filter, CtHit]
  refine ⟨hbind, hct, rfl, ?_, ?_⟩
  · intro kv
    show kv ∈ binding.filter _ ↔ _
    rw [List.mem_filter]
    rw [Bool.not_eq_true', ← Bool.not_eq_true, List.elem_iff, hbind kv.1]
  · intro k
    show k ∈ ct.filter _ ↔ _
    rw [List.mem_filter]
    rw [Bool.not_eq_true', ← Bool.not_eq_true, List.elem_iff, hct k]
    tauto

theorem updateExternalTrace_eq (k : V4Net) (b c w : Bool) :
    (updateExternalTrace k b c w).1 =
      .setDeletingFlag 1 :: .sleepMs 1 ::
        ((if b then [SkelEvent.deleteBindingBatch (netIpAddr k)]
          else [SkelEvent.deleteBindingBatch (netIpAddr k),
            SkelEvent.deleteCtBatch (netIpAddr k)]) ++
         (if b || c then [] else [SkelEvent.writeExternalEntry k])) ++
        [.setDeletingFlag 0] := by
  cases b <;> cases c <;> rfl

theorem deleteExternalTrace_eq (k : V4Net) (d b c : Bool) :
    (deleteExternalTrace k d b c).1 =
      .setDeletingFlag 1 :: .sleepMs 1 ::
        (SkelEvent.deleteExternalEntry k ::
         (if d then [] else if b then [SkelEvent.deleteBindingBatch (netIpAddr k)]
          else [SkelEvent.deleteBindingBatch (netIpAddr k),
            SkelEvent.deleteCtBatch (netIpAddr k)])) ++
        [.setDeletingFlag 0] := by
  cases d <;> cases b <;> cases c <;> rfl

/-- C1: for every external-config Update and Delete of the apply path and
every combination of failure outcomes of the guarded operations, the
trace first raises the quiescence flag and sleeps one millisecond, all
binding/connection-tracking deletes and the external-config entry write
or removal happen strictly between that prologue and a final lowering of
the flag (so the flag is lowered before returning, on success and error
paths alike); for an Update the purge deletes precede the entry
overwrite, and for a Delete the entry removal precedes the purge. -/
theorem claim1_quiescence_discipline (k : V4Net) (b c w d : Bool) :
    (∃ mid, (updateExternalTrace k b c w).1 =
        .setDeletingFlag 1 :: .sleepMs 1 :: mid ++ [.setDeletingFlag 0] ∧
      (∀ e ∈ mid, isMapMutation e = true) ∧
      ∃ purgePart writePart, mid = purgePart ++ writePart ∧
        (∀ e ∈ purgePart, isPurgeDelete e = true) ∧
        (∀ e ∈ writePart, e = .writeExternalEntry k)) ∧
    (∃ mid, (deleteExternalTrace k d b c).1 =
        .setDeletingFlag 1 :: .sleepMs 1 :: mid ++ [.setDeletingFlag 0] ∧
      (∀ e ∈ mid, isMapMutation e = true) ∧
      ∃ purgePart, mid = .deleteExternalEntry k :: purgePart ∧
        (∀ e ∈ purgePart, isPurgeDelete e = true)) := by
  constructor
  · refine ⟨_, updateExternalTrace_eq k b c w, ?_, _, _, rfl, ?_, ?_⟩
    · intro e he
      rcases List.mem_append.mp he with h | h
      · cases b <;> simp at h <;>
          first
          | (rw [h]; rfl)
          | (rcases h with h | h <;> rw [h] <;> rfl)
      · cases b <;> cases c <;> simp at h
        rw [h]; rfl
    · intro e he
      cases b <;> simp at he <;>
        first
        | (rw [he]; rfl)
        | (rcases he with h | h <;> rw [h] <;> rfl)
    · intro e he
      cases b <;> cases c <;> simp at he
      exact he
  · refine ⟨_, deleteExternalTrace_eq k d b c, ?_, _, rfl, ?_⟩
    · intro e he
      rcases List.mem_cons.mp he with h | h
      · rw [h]; rfl
      · cases d <;> cases b <;> simp at h <;>
          first
          | (rw [h]; rfl)
          | (rcases h with h | h <;> rw [h] <;> rfl)
    · intro e he
      cases d <;> cases b <;> simp at he <;>
        first
        | (rw [he]; rfl)
        | (rcases he with h | h <;> rw [h] <;> rfl)

end Einat
